import Mathlib

/-!
Verification of the ctxlog structured logger: a shallow embedding of the
field-chain resolver, the special-field reduction rules, the
encode-with-fallback protocol and the nil-logger guards, with theorems
settling the specified properties.
-/

set_option linter.unusedVariables false

namespace Ctxlog

/-- Model of Go `time.Time`: an absolute instant (unix nanoseconds) together
with the attached zone offset in seconds. `UTC()` keeps the instant and sets
the zone offset to 0. -/
structure GoTime where
  unixNanos : Int
  offsetSec : Int
  deriving DecidableEq, Repr

/-- `t.UTC()`. -/
def GoTime.toUTC (t : GoTime) : GoTime := ⟨t.unixNanos, 0⟩

/-- Model of a Go `error` value: `Error()` returns `msg`; when the error (or an
error it wraps) implements `Stacker`, `stackPCs` holds the program counters its
`Stack()` method yields, so `errors.As(err, &st)` succeeds exactly when
`stackPCs` is `some`. -/
structure ErrVal where
  msg : String
  stackPCs : Option (List Nat)
  deriving DecidableEq, Repr

/-- A resolved `runtime.Frame`: source file, line and function name. -/
structure Frame where
  file : String
  line : Nat
  fn : String
  deriving DecidableEq, Repr

/-- The zero `runtime.Frame` that `Frames.Next` returns when no frames remain
(`Func.Name()` of a nil `*Func` is the empty string). -/
def zeroFrame : Frame := ⟨"", 0, ""⟩

/-- `fmt.Sprintf("%s:%d[%s]", frame.File, frame.Line, frame.Func.Name())`. -/
def renderFrame (f : Frame) : String :=
  f.file ++ ":" ++ toString f.line ++ "[" ++ f.fn ++ "]"

/-- The universe of field values (`any` in Go) that the claims exercise:
strings, numbers, timestamps, error values, string slices (rendered stacks)
and channels (the canonical JSON-unencodable value). -/
inductive Val where
  | str : String → Val
  | nat : Nat → Val
  | time : GoTime → Val
  | err : ErrVal → Val
  | strList : List String → Val
  | chan : Nat → Val
  deriving DecidableEq, Repr

/-- The type assertion `f.val.(error)`. -/
def Val.errVal? : Val → Option ErrVal
  | .err e => some e
  | _ => none

/-- The type assertion `f.val.(time.Time)`. -/
def Val.timeVal? : Val → Option GoTime
  | .time t => some t
  | _ => none

/-- `Field` of the current generation (src/unnamed/part_007 lines 101-104):
one key/value pair. -/
structure Field where
  key : String
  val : Val
  deriving DecidableEq, Repr

/-- `Value(k, v)` constructor (part_007 lines 106-108). -/
def Value (k : String) (v : Val) : Field := ⟨k, v⟩

/-- `Error(err)` constructor (part_007 lines 110-112). -/
def ErrorField (e : ErrVal) : Field := ⟨"error", .err e⟩

/-- `Time(t)` constructor (part_007 lines 114-116). -/
def TimeField (t : GoTime) : Field := ⟨"time", .time t⟩

/-- `Hidden(v)` constructor (part_005 lines 67-69): empty key. -/
def Hidden (v : Val) : Field := ⟨"", v⟩

/-- `ctxdata` (part_007 lines 122-125) is one scope-chain node: a link to the
previous node (nil at the root) plus the fields attached at this scope. The
backward-linked chain of nodes is modeled by the list of the nodes' field
sets, leaf node first; `[]` is the nil pointer. -/
abbrev Ctxchain := List (List Field)

/-- The resolved record: Go's `map[string]any`, modeled as an association
list with unique keys. -/
abbrev Record := List (String × Val)

/-- Map lookup `m[k]`. -/
def recFind : Record → String → Option Val
  | [], _ => none
  | (k0, v0) :: m, k => if k = k0 then some v0 else recFind m k

/-- The `_, exists := m[k]` check. -/
def recHas (m : Record) (k : String) : Bool := (recFind m k).isSome

/-- Map assignment `m[k] = v`: replace the binding when present, else add. -/
def recSet : Record → String → Val → Record
  | [], k, v => [(k, v)]
  | (k0, v0) :: m, k, v => if k = k0 then (k0, v) :: m else (k0, v0) :: recSet m k v

/-- The loop of `stack` (part_007 lines 88-99): `runtime.CallersFrames` over
the pc slice, then repeated `Next()` whose body appends `file:line[function]`
BEFORE checking `more`. Symbolication of a program counter is performed by the
runtime and is abstracted as the parameter `sym` (one frame per address; the
runtime's inline expansion is folded into `sym`). With an empty pc slice the
first `Next` already reports `more = false`, but the loop body has appended
the rendering of the zero frame by then. -/
def stackGo (sym : Nat → Frame) : List Nat → List String
  | [] => [renderFrame zeroFrame]
  | [p] => [renderFrame (sym p)]
  | p :: q :: rest => renderFrame (sym p) :: stackGo sym (q :: rest)

/-- One iteration of the `handleFields` closure in `Log.print`
(printer.go lines 29-58): skip empty keys, skip keys already present, reduce
the reserved keys `error` (message plus optional stack) and `time`
(UTC-normalized timestamp), insert everything else raw. -/
def handleField (sym : Nat → Frame) (m : Record) (f : Field) : Record :=
  if f.key = "" then m
  else if recHas m f.key then m
  else if f.key = "error" then
    let m1 := match f.val.errVal? with
      | some e => recSet m "error" (.str e.msg)
      | none => m
    match f.val.errVal? with
    | some e =>
      match e.stackPCs with
      | some pcs => recSet m1 "error_stack" (.strList (stackGo sym pcs))
      | none => m1
    | none => m1
  else if f.key = "time" then
    match f.val.timeVal? with
    | some t => recSet m "time" (.time t.toUTC)
    | none => m
  else recSet m f.key f.val

/-- `handleFields(fs)`: the fields of one node in attachment order. -/
def handleFields (sym : Nat → Frame) (m : Record) (fs : List Field) : Record :=
  fs.foldl (handleField sym) m

/-- `for d := cd; d != nil; d = d.prev { handleFields(d.fields) }`
(printer.go lines 60-62). -/
def chainFold (sym : Nat → Frame) (m : Record) : Ctxchain → Record
  | [] => m
  | fs :: prev => chainFold sym (handleFields sym m fs) prev

/-- All fields seen on the walk, leaf to root, attachment order inside each
node. -/
def walkFields : Ctxchain → List Field
  | [] => []
  | fs :: prev => fs ++ walkFields prev

/-- The same chain with every empty-key (`Hidden`) field removed; used to
state that such fields never influence the emitted record. -/
def stripHidden : Ctxchain → Ctxchain
  | [] => []
  | fs :: prev => fs.filter (fun f => !(f.key == "")) :: stripHidden prev

/-- `Log` of the current generation (part_007 lines 40-45): the base fields.
The sink writer and its mutex carry no data relevant to record resolution and
are not part of the resolution state. -/
structure Log where
  fields : List Field
  deriving DecidableEq, Repr

/-- JSON-encodability of one value: a channel is the unrepresentable case,
with the encoder's failure description. -/
def Val.encodeErr? : Val → Option String
  | .chan _ => some "json: unsupported type: chan struct \x7b\x7d"
  | _ => none

/-- `json.NewEncoder(buf).Encode(m)` outcome: `some description` exactly when
some value of the record cannot be represented. -/
def recEncodeErr? : Record → Option String
  | [] => none
  | (_, v) :: m =>
    match v.encodeErr? with
    | some e => some e
    | none => recEncodeErr? m

/-- The type assertion `t := m["time"].(time.Time)` in the fallback branch
(printer.go line 78); Go would panic when the value is not a `time.Time`,
which is unreachable in `print`. -/
def timeAssert : Option Val → GoTime
  | some (.time t) => t
  | _ => ⟨0, 0⟩

/-- What one `print` call does at the sink: the record whose bytes are
written, and whether the call aborted the process (the `panic(err)` on a
substitute-record encode failure). -/
structure PrintOutcome where
  emitted : Record
  panicked : Bool
  deriving DecidableEq, Repr

/-- The resolution part of `Log.print` (printer.go lines 23-69): walk the
chain leaf to root, then the logger's base fields, then set `msg` and, when
no timestamp resolved, the current UTC instant. `nowT` is the value
`time.Now()` would return during the call. -/
def resolveRecord (sym : Nat → Frame) (l : Log) (cd : Ctxchain)
    (msg : String) (nowT : GoTime) : Record :=
  let m : Record := []
  let m := chainFold sym m cd
  let m := handleFields sym m l.fields
  let m := recSet m "msg" (.str msg)
  match recFind m "time" with
  | some (.time _) => m
  | _ => recSet m "time" (.time nowT.toUTC)

/-- The substitute record built on encode failure (printer.go lines 78-84).
`fmtT` models the external `time.Time.Format(time.RFC3339)`. -/
def substRecord (fmtT : GoTime → String) (t : GoTime) (e msg : String) : Record :=
  [("time", .str (fmtT t)), ("error", .str e),
   ("msg", .str "ctxlog: json encode error"), ("orig_msg", .str msg)]

/-- `Log.print` (printer.go lines 23-93): resolve, encode, on failure emit
the substitute record instead; abort (`panic`) only when the substitute
itself fails to encode. -/
def printGo (sym : Nat → Frame) (fmtT : GoTime → String) (l : Log)
    (cd : Ctxchain) (msg : String) (nowT : GoTime) : PrintOutcome :=
  let m := resolveRecord sym l cd msg nowT
  match recEncodeErr? m with
  | none => ⟨m, false⟩
  | some e =>
    let sub := substRecord fmtT (timeAssert (recFind m "time")) e msg
    ⟨sub, (recEncodeErr? sub).isSome⟩

/-- `With` (part_007 lines 31-38): no fields returns the context unchanged,
else a new leaf node is linked in front of the existing chain. -/
def With (ctx : Ctxchain) (fields : List Field) : Ctxchain :=
  if fields.isEmpty then ctx else fields :: ctx

/-- `Log.Print` (part_007 lines 55-62): a nil receiver returns at once
(no record, no panic); otherwise the call-site fields become the leaf node
above the chain stored in the context. -/
def LogPrint (sym : Nat → Frame) (fmtT : GoTime → String) (l : Option Log)
    (ctx : Ctxchain) (msg : String) (fields : List Field)
    (nowT : GoTime) : Option PrintOutcome :=
  match l with
  | none => none
  | some l0 => some (printGo sym fmtT l0 (fields :: ctx) msg nowT)

/-- One field iteration of the printer generation paired with part_005
(part_001 lines 44-67): same reduction as `handleField` but with no
empty-key skip and the dash spelling `error-stack`. -/
def handleFieldP5 (sym : Nat → Frame) (m : Record) (f : Field) : Record :=
  if recHas m f.key then m
  else if f.key = "error" then
    let m1 := match f.val.errVal? with
      | some e => recSet m "error" (.str e.msg)
      | none => m
    match f.val.errVal? with
    | some e =>
      match e.stackPCs with
      | some pcs => recSet m1 "error-stack" (.strList (stackGo sym pcs))
      | none => m1
    | none => m1
  else if f.key = "time" then
    match f.val.timeVal? with
    | some t => recSet m "time" (.time t.toUTC)
    | none => m
  else recSet m f.key f.val

/-- The chain walk of part_001's `printer.print` (lines 43-69). -/
def chainFoldP5 (sym : Nat → Frame) (m : Record) : Ctxchain → Record
  | [] => m
  | fs :: prev => chainFoldP5 sym (fs.foldl (handleFieldP5 sym) m) prev

/-- `printer.print` of the part_005 generation (part_001 lines 28-92):
the base fields are already the chain root (see `newCtxData`), the time
fallback checks bare key existence, and the substitute record reuses the
resolved `time` and `msg` values under the dash spelling `orig-msg`. -/
def printP5 (sym : Nat → Frame) (l : Log) (cd : Ctxchain)
    (msg : String) (nowT : GoTime) : PrintOutcome :=
  let m := chainFoldP5 sym ([] : Record) cd
  let m := recSet m "msg" (.str msg)
  let m := if recHas m "time" then m else recSet m "time" (.time nowT.toUTC)
  match recEncodeErr? m with
  | none => ⟨m, false⟩
  | some e =>
    let sub : Record :=
      [("time", (recFind m "time").getD (.str "")), ("error", .str e),
       ("msg", .str "ctxlog: json encode error"),
       ("orig-msg", (recFind m "msg").getD (.str ""))]
    ⟨sub, (recEncodeErr? sub).isSome⟩

/-- `newCtxData` (part_005 lines 88-103): with no chain in the context the
logger's base fields become the implicit root node below the new leaf. -/
def newCtxData (l : Log) (ctx : Ctxchain) (fields : List Field) : Ctxchain :=
  match ctx with
  | [] => [fields, l.fields]
  | cd => fields :: cd

/-- `Log.Print` (part_005 lines 27-34): a nil receiver emits nothing and
does not panic; otherwise the call-site fields become the leaf node. -/
def printOp (sym : Nat → Frame) (l : Option Log) (ctx : Ctxchain)
    (msg : String) (fields : List Field) (nowT : GoTime) : Option PrintOutcome :=
  match l with
  | none => none
  | some l0 => some (printP5 sym l0 (newCtxData l0 ctx fields) msg nowT)

/-- `Log.With` (part_005 lines 36-44): nil receiver or no fields returns the
given context unchanged. -/
def withOp (l : Option Log) (ctx : Ctxchain) (fields : List Field) :
    Ctxchain :=
  match l with
  | none => ctx
  | some l0 => if fields.isEmpty then ctx else newCtxData l0 ctx fields

/-- An `io.Writer` as returned by `Log.Writer`: either `io.Discard` or the
package's context-carrying writer. -/
inductive GoWriter where
  | discard
  | logWriter (l : Log) (ctx : Ctxchain)

/-- `Log.Writer` (part_005 lines 46-56): a nil receiver yields `io.Discard`. -/
def writerOp (l : Option Log) (ctx : Ctxchain) : GoWriter :=
  match l with
  | none => .discard
  | some l0 => .logWriter l0 ctx

/-- `Log.SetDebugGlobal` (log.go lines 47-54), transcribed store by store:
when `v` is true the flag is set to 1, and then — the body has no early
return — it is unconditionally set back to 0. -/
def setDebugGlobal (v : Bool) (debug : Nat) : Nat :=
  let debug := if v then 1 else debug
  let debug := 0
  debug

/-- The gate at the top of `Log.Debug` (log.go lines 61-74): a per-context
boolean override wins when present; otherwise the global flag decides.
Returns true exactly when the call goes on to print a record. -/
def debugGate (ctxDebug : Option Bool) (debug : Nat) : Bool :=
  match ctxDebug with
  | some b => b
  | none => decide (debug ≠ 0)

/-- A field that the `error` reduction accepts: key `error` and an
error-shaped value. -/
def isErrField (f : Field) : Bool := f.key == "error" && f.val.errVal?.isSome

/-- The first error-shaped value attached under `error` in walk order. -/
def firstErr (fs : List Field) : Option ErrVal :=
  (fs.find? isErrField).bind (fun f => f.val.errVal?)

/-- A field that the `time` reduction accepts: key `time` and a timestamp
value. -/
def isTimeField (f : Field) : Bool := f.key == "time" && f.val.timeVal?.isSome

/-- The first timestamp attached under `time` in walk order. -/
def firstTime (fs : List Field) : Option GoTime :=
  (fs.find? isTimeField).bind (fun f => f.val.timeVal?)

/-- A concrete symbolication table used by closed witness statements. -/
def sym0 : Nat → Frame := fun p => ⟨"f.go", p, "fn"⟩

/-- A concrete RFC3339 renderer used by closed witness statements. -/
def fmt0 : GoTime → String := fun t => "rfc3339 " ++ toString t.unixNanos

theorem recFind_recSet (m : Record) (k k' : String) (v : Val) :
    recFind (recSet m k v) k' = if k' = k then some v else recFind m k' := by
  induction m with
  | nil =>
    by_cases h : k' = k <;> simp [recSet, recFind, h]
  | cons hd tl ih =>
    obtain ⟨k0, v0⟩ := hd
    by_cases hk : k = k0
    · subst hk
      by_cases h : k' = k <;> simp [recSet, recFind, h]
    · by_cases h : k' = k0
      · subst h
        simp [recSet, recFind, hk, Ne.symm hk]
      · simp [recSet, recFind, hk, h, ih]

theorem recHas_eq (m : Record) (k : String) :
    recHas m k = (recFind m k).isSome := rfl

/-- `handleField` can change the lookup of a key only at `f.key`, `error`,
`error_stack` or `time`. -/
theorem handleField_find_other (sym : Nat → Frame) (m : Record) (f : Field)
    (k : String) (hkey : f.key ≠ k) (he : k ≠ "error")
    (hs : k ≠ "error_stack") (ht : k ≠ "time") :
    recFind (handleField sym m f) k = recFind m k := by
  unfold handleField
  split
  · rfl
  · split
    · rfl
    · split
      · cases hv : f.val.errVal? with
        | none => simp [hv]
        | some e =>
          cases hp : e.stackPCs with
          | none => simp [hv, hp, recFind_recSet, he]
          | some pcs => simp [hv, hp, recFind_recSet, he, hs]
      · split
        · cases hv : f.val.timeVal? with
          | none => simp [hv]
          | some t => simp [hv, recFind_recSet, ht]
        · simp [recFind_recSet, Ne.symm hkey]

/-- For a key outside the reserved set, one field fills the key when absent
and it is that field's key; otherwise the lookup is unchanged. -/
theorem handleField_find_nonres (sym : Nat → Frame) (m : Record) (f : Field)
    (k : String) (hk : k ∉ (["", "error", "error_stack", "time"] : List String)) :
    recFind (handleField sym m f) k =
      if f.key = k ∧ recFind m k = none then some f.val else recFind m k := by
  have hk0 : k ≠ "" := fun h => hk (by simp [h])
  have hk1 : k ≠ "error" := fun h => hk (by simp [h])
  have hk2 : k ≠ "error_stack" := fun h => hk (by simp [h])
  have hk3 : k ≠ "time" := fun h => hk (by simp [h])
  by_cases hf : f.key = k
  · subst hf
    cases hfind : recFind m f.key with
    | some v =>
      have hhas : recHas m f.key = true := by simp [recHas, hfind]
      simp [handleField, hhas, hfind, hk0]
    | none =>
      have hhas : recHas m f.key = false := by simp [recHas, hfind]
      simp [handleField, hhas, hfind, hk0, hk1, hk3, recFind_recSet]
  · rw [handleField_find_other sym m f k hf hk1 hk2 hk3]
    simp [hf]

/-- Insert-if-absent over one node's fields: an already present key is kept,
an absent one resolves to the first field bearing it. -/
theorem handleFields_find_nonres (sym : Nat → Frame) (fs : List Field)
    (k : String) (hk : k ∉ (["", "error", "error_stack", "time"] : List String)) :
    ∀ m : Record,
      recFind (handleFields sym m fs) k =
        match recFind m k with
        | some v => some v
        | none => (fs.find? (fun f => f.key == k)).map Field.val := by
  induction fs with
  | nil =>
    intro m
    cases h : recFind m k <;> simp [handleFields, h, List.find?]
  | cons f fs ih =>
    intro m
    have hstep : handleFields sym m (f :: fs) = handleFields sym (handleField sym m f) fs := rfl
    rw [hstep, ih (handleField sym m f), handleField_find_nonres sym m f k hk]
    by_cases hf : f.key = k
    · have hf' : (f.key == k) = true := by simp [hf]
      cases hfind : recFind m k with
      | some v => simp [hfind, hf, hf', List.find?]
      | none => simp [hfind, hf, hf', List.find?]
    · have hf' : (f.key == k) = false := by simp [hf]
      cases hfind : recFind m k with
      | some v => simp [hfind, hf, hf', List.find?]
      | none => simp [hfind, hf, hf', List.find?]

/-- The chain loop equals one pass over the flattened walk. -/
theorem chainFold_eq_walk (sym : Nat → Frame) (m : Record)
    (cd : Ctxchain) :
    chainFold sym m cd = handleFields sym m (walkFields cd) := by
  induction cd generalizing m with
  | nil => rfl
  | cons fs prev ih =>
    show chainFold sym (handleFields sym m fs) prev = _
    rw [ih]
    simp [walkFields, handleFields, List.foldl_append]

/-- Once `error` is present no later field changes it. -/
theorem handleField_pres_error (sym : Nat → Frame) (m : Record) (f : Field)
    (he : (recFind m "error").isSome) :
    recFind (handleField sym m f) "error" = recFind m "error" := by
  unfold handleField
  split
  · rfl
  · split
    · rfl
    · rename_i hkey hhas
      split
      · rename_i hkerr
        exfalso
        rw [hkerr] at hhas
        simp [recHas] at hhas
        simp [hhas] at he
      · split
        · cases hv : f.val.timeVal? with
          | none => simp [hv]
          | some t => simp [hv, recFind_recSet]
        · rename_i hkerr hktime
          simp [recFind_recSet, Ne.symm hkerr]

/-- Once both `error` and `error_stack` are present no later field changes
`error_stack`. -/
theorem handleField_pres_error_stack (sym : Nat → Frame) (m : Record)
    (f : Field) (he : (recFind m "error").isSome)
    (hs : (recFind m "error_stack").isSome) :
    recFind (handleField sym m f) "error_stack" = recFind m "error_stack" := by
  unfold handleField
  split
  · rfl
  · split
    · rfl
    · rename_i hkey hhas
      split
      · rename_i hkerr
        exfalso
        rw [hkerr] at hhas
        simp [recHas] at hhas
        simp [hhas] at he
      · split
        · cases hv : f.val.timeVal? with
          | none => simp [hv]
          | some t => simp [hv, recFind_recSet]
        · rename_i hkerr hktime
          have hkstack : f.key ≠ "error_stack" := by
            intro hx
            rw [hx] at hhas
            simp [recHas] at hhas
            simp [hhas] at hs
          simp [recFind_recSet, Ne.symm hkstack]

/-- Once `time` is present no later field changes it. -/
theorem handleField_pres_time (sym : Nat → Frame) (m : Record) (f : Field)
    (ht : (recFind m "time").isSome) :
    recFind (handleField sym m f) "time" = recFind m "time" := by
  unfold handleField
  split
  · rfl
  · split
    · rfl
    · rename_i hkey hhas
      split
      · cases hv : f.val.errVal? with
        | none => simp [hv]
        | some e =>
          cases hp : e.stackPCs with
          | none => simp [hv, hp, recFind_recSet]
          | some pcs => simp [hv, hp, recFind_recSet]
      · split
        · rename_i hkerr hktime
          exfalso
          rw [hktime] at hhas
          simp [recHas] at hhas
          simp [hhas] at ht
        · rename_i hkerr hktime
          simp [recFind_recSet, Ne.symm hktime]

theorem handleFields_pres_error (sym : Nat → Frame) (fs : List Field) :
    ∀ m : Record, (recFind m "error").isSome →
      recFind (handleFields sym m fs) "error" = recFind m "error" := by
  induction fs with
  | nil => intro m _; rfl
  | cons f fs ih =>
    intro m he
    have h1 := handleField_pres_error sym m f he
    have h2 := ih (handleField sym m f) (by rw [h1]; exact he)
    calc recFind (handleFields sym m (f :: fs)) "error"
        = recFind (handleFields sym (handleField sym m f) fs) "error" := rfl
      _ = recFind (handleField sym m f) "error" := h2
      _ = recFind m "error" := h1

theorem handleFields_pres_error_stack (sym : Nat → Frame) (fs : List Field) :
    ∀ m : Record, (recFind m "error").isSome → (recFind m "error_stack").isSome →
      recFind (handleFields sym m fs) "error_stack" = recFind m "error_stack" := by
  induction fs with
  | nil => intro m _ _; rfl
  | cons f fs ih =>
    intro m he hs
    have h1 := handleField_pres_error sym m f he
    have h2 := handleField_pres_error_stack sym m f he hs
    have h3 := ih (handleField sym m f) (by rw [h1]; exact he) (by rw [h2]; exact hs)
    calc recFind (handleFields sym m (f :: fs)) "error_stack"
        = recFind (handleFields sym (handleField sym m f) fs) "error_stack" := rfl
      _ = recFind (handleField sym m f) "error_stack" := h3
      _ = recFind m "error_stack" := h2

theorem handleFields_pres_time (sym : Nat → Frame) (fs : List Field) :
    ∀ m : Record, (recFind m "time").isSome →
      recFind (handleFields sym m fs) "time" = recFind m "time" := by
  induction fs with
  | nil => intro m _; rfl
  | cons f fs ih =>
    intro m ht
    have h1 := handleField_pres_time sym m f ht
    have h2 := ih (handleField sym m f) (by rw [h1]; exact ht)
    calc recFind (handleFields sym m (f :: fs)) "time"
        = recFind (handleFields sym (handleField sym m f) fs) "time" := rfl
      _ = recFind (handleField sym m f) "time" := h1.symm ▸ h2
      _ = recFind m "time" := h1

/-- A field the `error` reduction does not accept leaves an absent `error`
absent. -/
theorem handleField_error_none (sym : Nat → Frame) (m : Record) (f : Field)
    (hf : isErrField f = false) (hm : recFind m "error" = none) :
    recFind (handleField sym m f) "error" = none := by
  unfold handleField
  split
  · exact hm
  · split
    · exact hm
    · rename_i hkey hhas
      split
      · rename_i hkerr
        have hv : f.val.errVal? = none := by
          simp [isErrField, hkerr] at hf
          cases hx : f.val.errVal? with
          | none => rfl
          | some e => rw [hx] at hf; simp at hf
        simp [hv, hm]
      · split
        · cases hv : f.val.timeVal? with
          | none => simp [hv, hm]
          | some t => simp [hv, recFind_recSet, hm]
        · rename_i hkerr hktime
          simp [recFind_recSet, Ne.symm hkerr, hm]

/-- A field the `time` reduction does not accept leaves an absent `time`
absent. -/
theorem handleField_time_none (sym : Nat → Frame) (m : Record) (f : Field)
    (hf : isTimeField f = false) (hm : recFind m "time" = none) :
    recFind (handleField sym m f) "time" = none := by
  unfold handleField
  split
  · exact hm
  · split
    · exact hm
    · rename_i hkey hhas
      split
      · cases hv : f.val.errVal? with
        | none => simp [hv, hm]
        | some e =>
          cases hp : e.stackPCs with
          | none => simp [hv, hp, recFind_recSet, hm]
          | some pcs => simp [hv, hp, recFind_recSet, hm]
      · split
        · rename_i hkerr hktime
          have hv : f.val.timeVal? = none := by
            simp [isTimeField, hktime] at hf
            cases hx : f.val.timeVal? with
            | none => rfl
            | some t => rw [hx] at hf; simp at hf
          simp [hv, hm]
        · rename_i hkerr hktime
          simp [recFind_recSet, Ne.symm hktime, hm]

/-- With no accepted `error` field in the list, `error` stays absent. -/
theorem handleFields_error_none (sym : Nat → Frame) (fs : List Field)
    (hfs : fs.find? isErrField = none) :
    ∀ m : Record, recFind m "error" = none →
      recFind (handleFields sym m fs) "error" = none := by
  induction fs with
  | nil => intro m hm; exact hm
  | cons f fs ih =>
    intro m hm
    rw [List.find?_cons] at hfs
    cases hh : isErrField f with
    | true => rw [hh] at hfs; simp at hfs
    | false =>
      rw [hh] at hfs
      exact ih hfs (handleField sym m f) (handleField_error_none sym m f hh hm)

/-- The resolved `error` and `error_stack` entries come from the first
accepted `error` field of the walk. -/
theorem handleFields_firstErr (sym : Nat → Frame) (fs : List Field)
    (e : ErrVal) (hfs : firstErr fs = some e) :
    ∀ m : Record, recFind m "error" = none →
      recFind (handleFields sym m fs) "error" = some (.str e.msg) ∧
      ∀ pcs, e.stackPCs = some pcs →
        recFind (handleFields sym m fs) "error_stack" =
          some (.strList (stackGo sym pcs)) := by
  induction fs with
  | nil => simp [firstErr, List.find?] at hfs
  | cons f fs ih =>
    intro m hm
    cases hh : isErrField f with
    | false =>
      have hfs' : firstErr fs = some e := by
        rw [firstErr, List.find?_cons, hh] at hfs
        exact hfs
      have hm' := handleField_error_none sym m f hh hm
      exact ih hfs' (handleField sym m f) hm'
    | true =>
      have hv : f.val.errVal? = some e := by
        rw [firstErr, List.find?_cons, hh] at hfs
        simpa using hfs
      have hkerr : f.key = "error" := by
        simp [isErrField] at hh
        exact hh.1
      have hhas : recHas m f.key = false := by
        rw [hkerr]; simp [recHas, hm]
      have hkey : ¬ f.key = "" := by rw [hkerr]; simp
      cases hp : e.stackPCs with
      | some pcs =>
        have hstep : handleField sym m f =
            recSet (recSet m "error" (.str e.msg)) "error_stack"
              (.strList (stackGo sym pcs)) := by
          unfold handleField
          rw [hkerr]
          simp [hv, hp, recHas, hm]
        have he2 : recFind (handleField sym m f) "error" = some (.str e.msg) := by
          rw [hstep]
          simp [recFind_recSet]
        have hs2 : recFind (handleField sym m f) "error_stack" =
            some (.strList (stackGo sym pcs)) := by
          rw [hstep]
          simp [recFind_recSet]
        have hpe := handleFields_pres_error sym fs (handleField sym m f)
          (by rw [he2]; rfl)
        have hps := handleFields_pres_error_stack sym fs (handleField sym m f)
          (by rw [he2]; rfl) (by rw [hs2]; rfl)
        constructor
        · show recFind (handleFields sym (handleField sym m f) fs) "error" = _
          rw [hpe, he2]
        · intro pcs' hp'
          have hpp : pcs' = pcs := (Option.some.inj hp').symm
          subst hpp
          show recFind (handleFields sym (handleField sym m f) fs) "error_stack" = _
          rw [hps, hs2]
      | none =>
        have hstep : handleField sym m f = recSet m "error" (.str e.msg) := by
          unfold handleField
          rw [hkerr]
          simp [hv, hp, recHas, hm]
        have he2 : recFind (handleField sym m f) "error" = some (.str e.msg) := by
          rw [hstep]
          simp [recFind_recSet]
        have hpe := handleFields_pres_error sym fs (handleField sym m f)
          (by rw [he2]; rfl)
        constructor
        · show recFind (handleFields sym (handleField sym m f) fs) "error" = _
          rw [hpe, he2]
        · intro pcs' hp'
          simp [hp] at hp'

/-- With no accepted `time` field in the list, `time` stays absent. -/
theorem handleFields_time_none (sym : Nat → Frame) (fs : List Field)
    (hfs : fs.find? isTimeField = none) :
    ∀ m : Record, recFind m "time" = none →
      recFind (handleFields sym m fs) "time" = none := by
  induction fs with
  | nil => intro m hm; exact hm
  | cons f fs ih =>
    intro m hm
    rw [List.find?_cons] at hfs
    cases hh : isTimeField f with
    | true => rw [hh] at hfs; simp at hfs
    | false =>
      rw [hh] at hfs
      exact ih hfs (handleField sym m f) (handleField_time_none sym m f hh hm)

/-- The resolved `time` entry is the UTC normalization of the first accepted
`time` field of the walk. -/
theorem handleFields_firstTime (sym : Nat → Frame) (fs : List Field)
    (t : GoTime) (hfs : firstTime fs = some t) :
    ∀ m : Record, recFind m "time" = none →
      recFind (handleFields sym m fs) "time" = some (.time t.toUTC) := by
  induction fs with
  | nil => simp [firstTime, List.find?] at hfs
  | cons f fs ih =>
    intro m hm
    cases hh : isTimeField f with
    | false =>
      have hfs' : firstTime fs = some t := by
        rw [firstTime, List.find?_cons, hh] at hfs
        exact hfs
      exact ih hfs' (handleField sym m f) (handleField_time_none sym m f hh hm)
    | true =>
      have hv : f.val.timeVal? = some t := by
        rw [firstTime, List.find?_cons, hh] at hfs
        simpa using hfs
      have hktime : f.key = "time" := by
        simp [isTimeField] at hh
        exact hh.1
      have hhas : recHas m f.key = false := by
        rw [hktime]; simp [recHas, hm]
      have hkey : ¬ f.key = "" := by rw [hktime]; simp
      have hstep : handleField sym m f = recSet m "time" (.time t.toUTC) := by
        unfold handleField
        rw [hktime]
        simp [hv, recHas, hm]
      have ht2 : recFind (handleField sym m f) "time" = some (.time t.toUTC) := by
        rw [hstep]
        simp [recFind_recSet]
      have hpt := handleFields_pres_time sym fs (handleField sym m f)
        (by rw [ht2]; rfl)
      show recFind (handleFields sym (handleField sym m f) fs) "time" = _
      rw [hpt, ht2]

/-- A field with a different key and not aimed at `error_stack` leaves an
absent key absent. -/
theorem handleField_none (sym : Nat → Frame) (m : Record) (f : Field)
    (k : String) (hm : recFind m k = none) (hkf : f.key ≠ k)
    (hks : k ≠ "error_stack") :
    recFind (handleField sym m f) k = none := by
  by_cases hke : k = "error"
  · subst hke
    have hf : isErrField f = false := by
      simp [isErrField]
      intro hx
      exact absurd hx hkf
    exact handleField_error_none sym m f hf hm
  · by_cases hkt : k = "time"
    · subst hkt
      have hf : isTimeField f = false := by
        simp [isTimeField]
        intro hx
        exact absurd hx hkf
      exact handleField_time_none sym m f hf hm
    · rw [handleField_find_other sym m f k hkf hke hks hkt]
      exact hm

/-- A key present after a list of fields was already present, belongs to one
of the fields, or is `error_stack`. -/
theorem handleFields_keys (sym : Nat → Frame) (fs : List Field) (k : String) :
    ∀ m : Record, recFind (handleFields sym m fs) k ≠ none →
      recFind m k ≠ none ∨ fs.any (fun f => f.key == k) ∨ k = "error_stack" := by
  induction fs with
  | nil => intro m h; exact Or.inl h
  | cons f fs ih =>
    intro m h
    have h' := ih (handleField sym m f) h
    rcases h' with h' | h' | h'
    · by_cases hm : recFind m k = none
      · by_cases hkf : f.key = k
        · exact Or.inr (Or.inl (by simp [List.any_cons, hkf]))
        · by_cases hks : k = "error_stack"
          · exact Or.inr (Or.inr hks)
          · exact absurd (handleField_none sym m f k hm hkf hks) h'
      · exact Or.inl hm
    · exact Or.inr (Or.inl (by simp [List.any_cons]; right; simpa using h'))
    · exact Or.inr (Or.inr h')

/-- The `Frames.Next` loop renders one line per address, and one placeholder
line `:0[]` when the address slice is empty. -/
theorem stackGo_eq (sym : Nat → Frame) (pcs : List Nat) :
    stackGo sym pcs = if pcs.isEmpty then [renderFrame zeroFrame]
      else pcs.map (fun p => renderFrame (sym p)) := by
  induction pcs with
  | nil => rfl
  | cons p rest ih =>
    cases rest with
    | nil => rfl
    | cons q rest' =>
      have hstep : stackGo sym (p :: q :: rest') =
          renderFrame (sym p) :: stackGo sym (q :: rest') := rfl
      rw [hstep, ih]
      simp

theorem handleFields_append (sym : Nat → Frame) (m : Record)
    (fs1 fs2 : List Field) :
    handleFields sym m (fs1 ++ fs2) = handleFields sym (handleFields sym m fs1) fs2 := by
  simp [handleFields, List.foldl_append]

/-- Definitional unfolding of `resolveRecord`, with the chain loop already
flattened into one pass over the walk followed by the base fields. -/
theorem resolveRecord_eq (sym : Nat → Frame) (l : Log) (cd : Ctxchain)
    (msg : String) (nowT : GoTime) :
    resolveRecord sym l cd msg nowT =
      match recFind (recSet (handleFields sym ([] : Record)
          (walkFields cd ++ l.fields)) "msg" (.str msg)) "time" with
      | some (.time _) =>
          recSet (handleFields sym ([] : Record)
            (walkFields cd ++ l.fields)) "msg" (.str msg)
      | _ =>
          recSet (recSet (handleFields sym ([] : Record)
            (walkFields cd ++ l.fields)) "msg" (.str msg))
            "time" (.time nowT.toUTC) := by
  have hu : resolveRecord sym l cd msg nowT =
      match recFind (recSet (handleFields sym (chainFold sym ([] : Record) cd)
          l.fields) "msg" (.str msg)) "time" with
      | some (.time _) =>
          recSet (handleFields sym (chainFold sym ([] : Record) cd)
            l.fields) "msg" (.str msg)
      | _ =>
          recSet (recSet (handleFields sym (chainFold sym ([] : Record) cd)
            l.fields) "msg" (.str msg)) "time" (.time nowT.toUTC) := rfl
  rw [hu, chainFold_eq_walk, ← handleFields_append]

/-- Lookup in the record after resolution, for keys other than `time`,
equals lookup right after the `msg` assignment. -/
theorem resolveRecord_find_notime (sym : Nat → Frame) (l : Log)
    (cd : Ctxchain) (msg : String) (nowT : GoTime) (k : String)
    (hk : k ≠ "time") :
    recFind (resolveRecord sym l cd msg nowT) k =
      recFind (recSet (handleFields sym ([] : Record)
        (walkFields cd ++ l.fields)) "msg" (.str msg)) k := by
  rw [resolveRecord_eq]
  split
  · rfl
  · rw [recFind_recSet, if_neg hk]

/-- C1 (amended): for every key other than the reserved ones (the empty key,
`msg`, `time`, `error`, `error_stack`), a log call resolves the key to the
first-encountered value when walking nodes from leaf to root with fields of a
node in attachment order, skipping a field whose key is already present; the
logger's base fields are merged last under the same insert-if-absent rule, so
for such keys a value attached anywhere in the chain always overrides a base
field with the same key. (The reserved keys `error` and `time` insert only
suitably-typed values — a wrong-typed field inserts nothing and does not
block fields closer to the root — and an `error` field bearing a stack
overwrites an earlier `error_stack` entry.) -/
theorem c1_chain_resolution (sym : Nat → Frame) (l : Log) (cd : Ctxchain)
    (msg : String) (nowT : GoTime) (k : String)
    (hk : k ∉ (["", "msg", "time", "error", "error_stack"] : List String)) :
    recFind (resolveRecord sym l cd msg nowT) k =
      ((walkFields cd ++ l.fields).find? (fun f => f.key == k)).map Field.val := by
  have hk4 : k ∉ (["", "error", "error_stack", "time"] : List String) := by
    intro h
    apply hk
    simp only [List.mem_cons, List.not_mem_nil, or_false] at h ⊢
    tauto
  have hkm : k ≠ "msg" := fun h => hk (by simp [h])
  have hkt : k ≠ "time" := fun h => hk (by simp [h])
  rw [resolveRecord_find_notime sym l cd msg nowT k hkt]
  rw [recFind_recSet, if_neg hkm]
  rw [handleFields_find_nonres sym (walkFields cd ++ l.fields) k hk4 ([] : Record)]
  rfl

/-- Witness for C1: two nested scopes and a base field all carry `foo`; the
resolved value is the leaf node's first `foo`. -/
theorem c1_chain_resolution_witness :
    recFind (resolveRecord sym0 ⟨[⟨"foo", .nat 0⟩]⟩
        [[⟨"foo", .nat 2⟩, ⟨"foo", .nat 3⟩], [⟨"foo", .nat 1⟩]] "m" ⟨5, 0⟩) "foo" =
      some (.nat 2) := by
  have h := c1_chain_resolution sym0 ⟨[⟨"foo", .nat 0⟩]⟩
    [[⟨"foo", .nat 2⟩, ⟨"foo", .nat 3⟩], [⟨"foo", .nat 1⟩]] "m" ⟨5, 0⟩ "foo" (by decide)
  rw [h]
  decide

/-- Counterexample for C1 as stated: within one node, an `error_stack` field
comes first in attachment order, yet the later `error` field's stack
enrichment overwrites it — the key does not resolve to its first-encountered
value and the skip-if-present rule does not protect it. -/
theorem c1_counterexample :
    recFind (resolveRecord sym0 ⟨[]⟩
        [[⟨"error_stack", .str "custom"⟩,
          ⟨"error", .err ⟨"boom", some [7]⟩⟩]] "m" ⟨5, 0⟩) "error_stack" ≠
      some (.str "custom") ∧
    recFind (resolveRecord sym0 ⟨[]⟩
        [[⟨"error_stack", .str "custom"⟩,
          ⟨"error", .err ⟨"boom", some [7]⟩⟩]] "m" ⟨5, 0⟩) "error_stack" =
      some (.strList ["f.go:7[fn]"]) := by
  decide

/-- C2 (amended): on a resolved-record encode failure the call emits a
substitute record with exactly the four fields `time` (the already-resolved
instant, RFC3339-rendered), `error` (the encoder's failure description),
`msg` (the fixed sentinel "ctxlog: json encode error") and `orig_msg` (the
original message; the key is spelled with an underscore, not `orig-msg`);
the failure is never surfaced to the caller and the call does not abort —
only a substitute-record encode failure would, and the substitute is
all-strings. -/
theorem c2_encode_fallback (sym : Nat → Frame) (fmtT : GoTime → String)
    (l : Log) (cd : Ctxchain) (msg : String) (nowT : GoTime)
    (e : String) (t : GoTime)
    (henc : recEncodeErr? (resolveRecord sym l cd msg nowT) = some e)
    (ht : recFind (resolveRecord sym l cd msg nowT) "time" = some (.time t)) :
    (printGo sym fmtT l cd msg nowT).emitted =
      [("time", .str (fmtT t)), ("error", .str e),
       ("msg", .str "ctxlog: json encode error"), ("orig_msg", .str msg)] ∧
    (printGo sym fmtT l cd msg nowT).emitted.map Prod.fst =
      ["time", "error", "msg", "orig_msg"] ∧
    (printGo sym fmtT l cd msg nowT).panicked = false := by
  have hstep : printGo sym fmtT l cd msg nowT =
      ⟨substRecord fmtT
        (timeAssert (recFind (resolveRecord sym l cd msg nowT) "time")) e msg,
       (recEncodeErr? (substRecord fmtT
        (timeAssert (recFind (resolveRecord sym l cd msg nowT) "time")) e msg)).isSome⟩ := by
    simp only [printGo, henc]
  rw [hstep, ht]
  exact ⟨rfl, rfl, rfl⟩

/-- Witness for C2: a channel-valued field makes the record unencodable; the
emitted record is the four-field substitute. -/
theorem c2_encode_fallback_witness :
    (printGo sym0 fmt0 ⟨[]⟩ [[⟨"c", .chan 0⟩, ⟨"time", .time ⟨42, 0⟩⟩]]
        "hello" ⟨5, 0⟩).emitted =
      [("time", .str (fmt0 ⟨42, 0⟩)),
       ("error", .str "json: unsupported type: chan struct \x7b\x7d"),
       ("msg", .str "ctxlog: json encode error"), ("orig_msg", .str "hello")] ∧
    (printGo sym0 fmt0 ⟨[]⟩ [[⟨"c", .chan 0⟩, ⟨"time", .time ⟨42, 0⟩⟩]]
        "hello" ⟨5, 0⟩).emitted.map Prod.fst =
      ["time", "error", "msg", "orig_msg"] ∧
    (printGo sym0 fmt0 ⟨[]⟩ [[⟨"c", .chan 0⟩, ⟨"time", .time ⟨42, 0⟩⟩]]
        "hello" ⟨5, 0⟩).panicked = false :=
  c2_encode_fallback sym0 fmt0 ⟨[]⟩ [[⟨"c", .chan 0⟩, ⟨"time", .time ⟨42, 0⟩⟩]]
    "hello" ⟨5, 0⟩ "json: unsupported type: chan struct \x7b\x7d" ⟨42, 0⟩
    (by decide) (by decide)

/-- Counterexample for C2 as stated: the emitted substitute record has no
`orig-msg` key — the fourth field's key is spelled `orig_msg`. -/
theorem c2_counterexample :
    recFind ((printGo sym0 fmt0 ⟨[]⟩ [[⟨"c", .chan 0⟩, ⟨"t", .nat 1⟩]]
        "hello" ⟨5, 0⟩).emitted) "orig-msg" = none ∧
    ((printGo sym0 fmt0 ⟨[]⟩ [[⟨"c", .chan 0⟩, ⟨"t", .nat 1⟩]]
        "hello" ⟨5, 0⟩).emitted).map Prod.fst =
      ["time", "error", "msg", "orig_msg"] := by
  decide

/-- C3: a timestamp attached under `time` anywhere in the walk resolves
`time` to that instant normalized to UTC (the first accepted field in
leaf-to-root order) and the logger never overwrites it; with none attached
the logger inserts the current UTC instant; and the synthesis introduces no
key besides `time` — every other present key is `msg`, `error_stack`, or
comes from an attached field. -/
theorem c3_time_resolution (sym : Nat → Frame) (l : Log) (cd : Ctxchain)
    (msg : String) (nowT : GoTime) :
    (∀ t, firstTime (walkFields cd ++ l.fields) = some t →
      recFind (resolveRecord sym l cd msg nowT) "time" = some (.time t.toUTC)) ∧
    (firstTime (walkFields cd ++ l.fields) = none →
      recFind (resolveRecord sym l cd msg nowT) "time" = some (.time nowT.toUTC)) ∧
    (∀ k, recFind (resolveRecord sym l cd msg nowT) k ≠ none →
      k = "time" ∨ k = "msg" ∨ k = "error_stack" ∨
        (walkFields cd ++ l.fields).any (fun f => f.key == k)) := by
  refine ⟨?_, ?_, ?_⟩
  · intro t ht
    have h2 : recFind (handleFields sym ([] : Record)
        (walkFields cd ++ l.fields)) "time" = some (.time t.toUTC) :=
      handleFields_firstTime sym (walkFields cd ++ l.fields) t ht ([] : Record) rfl
    have h3 : recFind (recSet (handleFields sym ([] : Record)
        (walkFields cd ++ l.fields)) "msg" (.str msg)) "time" =
        some (.time t.toUTC) := by
      rw [recFind_recSet]
      simp [h2]
    rw [resolveRecord_eq]
    split
    · exact h3
    · rename_i hno
      exact absurd h3 (by intro hx; exact hno t.toUTC hx)
  · intro hnone
    have hfind : (walkFields cd ++ l.fields).find? isTimeField = none := by
      cases hf : (walkFields cd ++ l.fields).find? isTimeField with
      | none => rfl
      | some f =>
        have hTf := List.find?_some hf
        rw [firstTime, hf] at hnone
        simp [isTimeField] at hTf
        obtain ⟨t, hx⟩ := Option.isSome_iff_exists.mp hTf.2
        simp [hx] at hnone
    have h2 := handleFields_time_none sym (walkFields cd ++ l.fields) hfind
      ([] : Record) rfl
    have h3 : recFind (recSet (handleFields sym ([] : Record)
        (walkFields cd ++ l.fields)) "msg" (.str msg)) "time" = none := by
      rw [recFind_recSet]
      simp [h2]
    rw [resolveRecord_eq]
    split
    · rename_i heq
      rw [h3] at heq
      cases heq
    · rw [recFind_recSet]
      simp
  · intro k hkne
    rw [resolveRecord_eq] at hkne
    have hmain : recFind (recSet (handleFields sym ([] : Record)
        (walkFields cd ++ l.fields)) "msg" (.str msg)) k ≠ none →
        k = "time" ∨ k = "msg" ∨ k = "error_stack" ∨
          (walkFields cd ++ l.fields).any (fun f => f.key == k) := by
      intro h3
      by_cases hkm : k = "msg"
      · exact Or.inr (Or.inl hkm)
      · rw [recFind_recSet, if_neg hkm] at h3
        rcases handleFields_keys sym (walkFields cd ++ l.fields) k ([] : Record) h3
          with hx | hx | hx
        · exact absurd rfl hx
        · exact Or.inr (Or.inr (Or.inr hx))
        · exact Or.inr (Or.inr (Or.inl hx))
    split at hkne
    · exact hmain hkne
    · by_cases hkt : k = "time"
      · exact Or.inl hkt
      · rw [recFind_recSet, if_neg hkt] at hkne
        exact hmain hkne

/-- Witness for C3: an explicit `time` field with a non-UTC zone resolves to
the same instant normalized to UTC. -/
theorem c3_time_resolution_witness :
    recFind (resolveRecord sym0 ⟨[]⟩ [[⟨"time", .time ⟨42, 3600⟩⟩]] "m" ⟨5, 0⟩)
        "time" = some (.time (GoTime.toUTC ⟨42, 3600⟩)) :=
  (c3_time_resolution sym0 ⟨[]⟩ [[⟨"time", .time ⟨42, 3600⟩⟩]] "m" ⟨5, 0⟩).1
    ⟨42, 3600⟩ (by decide)

/-- C4 (amended): a field with key `error` whose value is error-shaped
resolves `error` to the rendered message of the first such field in the
walk; a field with key `error` whose value is not error-shaped inserts
nothing — the value is dropped rather than raw-inserted, and with no
error-shaped `error` field anywhere the key is absent from the resolved
record. -/
theorem c4_error_reduction (sym : Nat → Frame) (l : Log) (cd : Ctxchain)
    (msg : String) (nowT : GoTime) :
    (∀ e, firstErr (walkFields cd ++ l.fields) = some e →
      recFind (resolveRecord sym l cd msg nowT) "error" = some (.str e.msg)) ∧
    ((walkFields cd ++ l.fields).find? isErrField = none →
      recFind (resolveRecord sym l cd msg nowT) "error" = none) := by
  have hne : ("error" : String) ≠ "time" := by decide
  have hnm : ("error" : String) ≠ "msg" := by decide
  constructor
  · intro e he
    have h2 := (handleFields_firstErr sym (walkFields cd ++ l.fields) e he
      ([] : Record) rfl).1
    rw [resolveRecord_find_notime sym l cd msg nowT "error" hne,
      recFind_recSet, if_neg hnm]
    exact h2
  · intro he
    have h2 := handleFields_error_none sym (walkFields cd ++ l.fields) he
      ([] : Record) rfl
    rw [resolveRecord_find_notime sym l cd msg nowT "error" hne,
      recFind_recSet, if_neg hnm]
    exact h2

/-- Witness for C4: an attached error value resolves `error` to its rendered
message. -/
theorem c4_error_reduction_witness :
    recFind (resolveRecord sym0 ⟨[]⟩ [[⟨"error", .err ⟨"broken pipe", none⟩⟩]]
        "m" ⟨5, 0⟩) "error" = some (.str "broken pipe") :=
  (c4_error_reduction sym0 ⟨[]⟩ [[⟨"error", .err ⟨"broken pipe", none⟩⟩]]
    "m" ⟨5, 0⟩).1 ⟨"broken pipe", none⟩ (by decide)

/-- Counterexample for C4 as stated: a field with key `error` and a plain
string value is dropped — nothing is inserted under `error`, the value is
not raw-inserted. -/
theorem c4_counterexample :
    recFind (resolveRecord sym0 ⟨[]⟩ [[⟨"error", .str "x"⟩]] "m" ⟨5, 0⟩)
        "error" = none ∧
    recFind (resolveRecord sym0 ⟨[]⟩ [[⟨"error", .str "x"⟩]] "m" ⟨5, 0⟩)
        "error" ≠ some (.str "x") := by
  decide

/-- C5: the resolved record's `msg` always equals the call's message
argument — it is set last and overwrites any attached field named `msg` —
and whenever the record encodes, that record is exactly what is emitted, so
the emitted record's `msg` equals the message on the normal path. -/
theorem c5_msg_wins (sym : Nat → Frame) (fmtT : GoTime → String) (l : Log)
    (cd : Ctxchain) (msg : String) (nowT : GoTime) :
    recFind (resolveRecord sym l cd msg nowT) "msg" = some (.str msg) ∧
    (recEncodeErr? (resolveRecord sym l cd msg nowT) = none →
      (printGo sym fmtT l cd msg nowT).emitted = resolveRecord sym l cd msg nowT ∧
      recFind ((printGo sym fmtT l cd msg nowT).emitted) "msg" =
        some (.str msg)) := by
  have h1 : recFind (resolveRecord sym l cd msg nowT) "msg" = some (.str msg) := by
    have hx : ("msg" : String) ≠ "time" := by decide
    rw [resolveRecord_find_notime sym l cd msg nowT "msg" hx, recFind_recSet]
    simp
  refine ⟨h1, fun henc => ?_⟩
  have hem : (printGo sym fmtT l cd msg nowT).emitted =
      resolveRecord sym l cd msg nowT := by
    simp only [printGo, henc]
  exact ⟨hem, by rw [hem]; exact h1⟩

/-- Witness for C5: an attached `msg` field is overwritten by the call's
message, both in the resolved and in the emitted record. -/
theorem c5_msg_wins_witness :
    recFind (resolveRecord sym0 ⟨[]⟩ [[⟨"msg", .str "spoof"⟩]] "hello" ⟨5, 0⟩)
        "msg" = some (.str "hello") ∧
    (printGo sym0 fmt0 ⟨[]⟩ [[⟨"msg", .str "spoof"⟩]] "hello" ⟨5, 0⟩).emitted =
      resolveRecord sym0 ⟨[]⟩ [[⟨"msg", .str "spoof"⟩]] "hello" ⟨5, 0⟩ :=
  ⟨(c5_msg_wins sym0 fmt0 ⟨[]⟩ [[⟨"msg", .str "spoof"⟩]] "hello" ⟨5, 0⟩).1,
   ((c5_msg_wins sym0 fmt0 ⟨[]⟩ [[⟨"msg", .str "spoof"⟩]] "hello" ⟨5, 0⟩).2
     (by decide)).1⟩

/-- Skipping is literal: a field with an empty key leaves the record
untouched. -/
theorem handleField_hidden (sym : Nat → Frame) (m : Record) (v : Val) :
    handleField sym m ⟨"", v⟩ = m := by
  simp [handleField]

theorem handleFields_filter_hidden (sym : Nat → Frame) (fs : List Field) :
    ∀ m : Record,
      handleFields sym m (fs.filter (fun f => !(f.key == ""))) =
        handleFields sym m fs := by
  induction fs with
  | nil => intro m; rfl
  | cons f fs ih =>
    intro m
    by_cases hf : f.key = ""
    · have hdrop : List.filter (fun f => !(f.key == "")) (f :: fs) =
          List.filter (fun f => !(f.key == "")) fs := by
        simp [List.filter_cons, hf]
      have hskip : handleField sym m f = m := by
        obtain ⟨fk, fv⟩ := f
        simp only at hf
        subst hf
        exact handleField_hidden sym m fv
      rw [hdrop, ih m]
      show handleFields sym m fs = handleFields sym (handleField sym m f) fs
      rw [hskip]
    · have hkeep : List.filter (fun f => !(f.key == "")) (f :: fs) =
          f :: List.filter (fun f => !(f.key == "")) fs := by
        simp [List.filter_cons, hf]
      rw [hkeep]
      show handleFields sym (handleField sym m f)
          (List.filter (fun f => !(f.key == "")) fs) =
        handleFields sym (handleField sym m f) fs
      exact ih (handleField sym m f)

theorem walkFields_strip (cd : Ctxchain) :
    walkFields (stripHidden cd) =
      (walkFields cd).filter (fun f => !(f.key == "")) := by
  induction cd with
  | nil => rfl
  | cons fs prev ih => simp [stripHidden, walkFields, ih, List.filter_append]

/-- C6: a field whose key is the empty string is skipped by resolution —
removing all such fields, from the chain or from the base fields, leaves the
whole printed outcome unchanged, so a hidden value never appears under any
key of the emitted record. -/
theorem c6_hidden_fields (sym : Nat → Frame) (fmtT : GoTime → String) (l : Log)
    (cd : Ctxchain) (msg : String) (nowT : GoTime) :
    printGo sym fmtT l (stripHidden cd) msg nowT =
      printGo sym fmtT l cd msg nowT ∧
    printGo sym fmtT ⟨l.fields.filter (fun f => !(f.key == ""))⟩ cd msg nowT =
      printGo sym fmtT l cd msg nowT := by
  have hres1 : resolveRecord sym l (stripHidden cd) msg nowT =
      resolveRecord sym l cd msg nowT := by
    rw [resolveRecord_eq, resolveRecord_eq, walkFields_strip]
    have hW : handleFields sym ([] : Record)
        ((walkFields cd).filter (fun f => !(f.key == "")) ++ l.fields) =
        handleFields sym ([] : Record) (walkFields cd ++ l.fields) := by
      rw [handleFields_append, handleFields_append, handleFields_filter_hidden]
    rw [hW]
  have hres2 : resolveRecord sym ⟨l.fields.filter (fun f => !(f.key == ""))⟩
      cd msg nowT = resolveRecord sym l cd msg nowT := by
    rw [resolveRecord_eq, resolveRecord_eq]
    have hW : handleFields sym ([] : Record)
        (walkFields cd ++ l.fields.filter (fun f => !(f.key == ""))) =
        handleFields sym ([] : Record) (walkFields cd ++ l.fields) := by
      rw [handleFields_append, handleFields_append, handleFields_filter_hidden]
    rw [hW]
  exact ⟨by simp only [printGo, hres1], by simp only [printGo, hres2]⟩

/-- C7 (amended): for the first error-shaped `error` field of the walk whose
value exposes the stack capability, each captured frame is rendered as
`file:line[function]` and the ordered sequence is inserted under
`error_stack`; when the capability yields no addresses the key is NOT
omitted — the loop inserts the single placeholder rendering `:0[]` (the key
is omitted only when the value does not expose the capability at all). -/
theorem c7_stack_reduction (sym : Nat → Frame) (l : Log) (cd : Ctxchain)
    (msg : String) (nowT : GoTime) (e : ErrVal) (pcs : List Nat)
    (he : firstErr (walkFields cd ++ l.fields) = some e)
    (hp : e.stackPCs = some pcs) :
    recFind (resolveRecord sym l cd msg nowT) "error_stack" =
      some (.strList (stackGo sym pcs)) ∧
    stackGo sym pcs = (if pcs.isEmpty then [renderFrame zeroFrame]
      else pcs.map (fun p => renderFrame (sym p))) := by
  have hne : ("error_stack" : String) ≠ "time" := by decide
  have hnm : ("error_stack" : String) ≠ "msg" := by decide
  have h2 := (handleFields_firstErr sym (walkFields cd ++ l.fields) e he
    ([] : Record) rfl).2 pcs hp
  rw [resolveRecord_find_notime sym l cd msg nowT "error_stack" hne,
    recFind_recSet, if_neg hnm]
  exact ⟨h2, stackGo_eq sym pcs⟩

/-- Witness for C7: an error exposing two addresses yields the two rendered
frames, in order, under `error_stack`. -/
theorem c7_stack_reduction_witness :
    recFind (resolveRecord sym0 ⟨[]⟩ [[⟨"error", .err ⟨"io fail", some [3, 4]⟩⟩]]
        "m" ⟨5, 0⟩) "error_stack" = some (.strList (stackGo sym0 [3, 4])) ∧
    stackGo sym0 [3, 4] = (if ([3, 4] : List Nat).isEmpty
      then [renderFrame zeroFrame]
      else ([3, 4] : List Nat).map (fun p => renderFrame (sym0 p))) :=
  c7_stack_reduction sym0 ⟨[]⟩ [[⟨"error", .err ⟨"io fail", some [3, 4]⟩⟩]]
    "m" ⟨5, 0⟩ ⟨"io fail", some [3, 4]⟩ [3, 4] (by decide) (by decide)

/-- Counterexample for C7 as stated: an error exposing the stack capability
with an empty address slice does not omit the key — `error_stack` is present
and holds the single placeholder rendering `:0[]`. -/
theorem c7_counterexample :
    recFind (resolveRecord sym0 ⟨[]⟩ [[⟨"error", .err ⟨"boom", some []⟩⟩]]
        "m" ⟨5, 0⟩) "error_stack" ≠ none ∧
    recFind (resolveRecord sym0 ⟨[]⟩ [[⟨"error", .err ⟨"boom", some []⟩⟩]]
        "m" ⟨5, 0⟩) "error_stack" = some (.strList [":0[]"]) := by
  decide

/-- C8: the claim (and the function's own documentation) requires
`SetDebugGlobal(true)` to enable debug emission globally, but the body
stores 1 and then unconditionally stores 0 — there is no early return — so
the global flag always ends at 0 and a debug call with no per-context
override emits nothing; the per-context override itself behaves as claimed,
and the gate does honor a nonzero flag, isolating the bug to
`SetDebugGlobal`. -/
theorem c8_global_debug_broken :
    setDebugGlobal true 0 = 0 ∧ setDebugGlobal true 1 = 0 ∧
    setDebugGlobal false 1 = 0 ∧
    debugGate none (setDebugGlobal true 0) = false ∧
    debugGate (some true) 0 = true ∧
    debugGate (some false) 1 = false ∧
    debugGate none 1 = true := by
  decide

/-- C10: every exported operation invoked on a nil logger is a safe no-op:
`Print` emits nothing (it returns before reaching the printer, so it cannot
panic), `With` returns the given context unchanged, and `Writer` returns the
discarding writer. -/
theorem c10_nil_logger_safe :
    (∀ (sym : Nat → Frame) (ctx : Ctxchain) (msg : String)
        (fields : List Field) (nowT : GoTime),
      printOp sym none ctx msg fields nowT = none) ∧
    (∀ (ctx : Ctxchain) (fields : List Field), withOp none ctx fields = ctx) ∧
    (∀ ctx : Ctxchain, writerOp none ctx = GoWriter.discard) :=
  ⟨fun _ _ _ _ _ => rfl, fun _ _ => rfl, fun _ => rfl⟩

end Ctxlog
